import Mathlib

set_option maxRecDepth 16384

/-!
Verification of the answer comparator and quiz-content validator of the
Tuitor-AI repository (`utils.compare_answers`, and the quiz-generation
validation contract).  Python strings are modelled as `List Char`
(Lean `String` at the boundary), Python `None`/string arguments as
`Option String`, and the numeric results of Python's `eval` as exact
rationals extended with signed infinities and NaN.
-/

/-- Characters stripped by Python `str.strip()` and matched by the regex
class `\s` (the ASCII whitespace set; the rare non-ASCII Unicode
whitespace characters are outside this model). -/
def pyWs (c : Char) : Bool :=
  c = ' ' || c = '\t' || c = '\n' || c = '\x0d' || c = '\x0b' || c = '\x0c'

/-- Model of Python `str.strip()`: drop whitespace from both ends. -/
def pyStripL (l : List Char) : List Char :=
  ((l.dropWhile pyWs).reverse.dropWhile pyWs).reverse

/-- Model of Python `str.lower()` on the character ranges the program uses:
ASCII letters and the Russian alphabet (А-Я and Ё); all other characters
are unchanged. -/
def pyLowerChar (c : Char) : Char :=
  if 'A' ≤ c ∧ c ≤ 'Z' then Char.ofNat (c.toNat + 32)
  else if 'А' ≤ c ∧ c ≤ 'Я' then Char.ofNat (c.toNat + 32)
  else if c = 'Ё' then 'ё'
  else c

def pyLowerL (l : List Char) : List Char := l.map pyLowerChar

/-- Fuelled worker for Python `str.replace`: replace non-overlapping
occurrences of `pat` left to right; replacement text is not rescanned.
One unit of fuel is spent per step and every step consumes at least one
input character, so fuel `l.length` always suffices. -/
def replGo (pat rep : List Char) : Nat → List Char → List Char
  | _, [] => []
  | 0, l => l
  | Nat.succ f, x :: xs =>
    if pat ≠ [] ∧ pat.isPrefixOf (x :: xs) then
      rep ++ replGo pat rep f ((x :: xs).drop pat.length)
    else
      x :: replGo pat rep f xs

/-- Model of Python `str.replace(pat, rep)` for non-empty `pat`. -/
def pyReplaceL (pat rep l : List Char) : List Char := replGo pat rep l.length l

/-- `utils.compare_answers` inner helper `replace_textual_operators`:
the four substitutions in source order (longer phrases first). -/
def replaceTextualL (l : List Char) : List Char :=
  pyReplaceL "меньше".data "<".data
    (pyReplaceL "больше".data ">".data
      (pyReplaceL "меньше или равно".data "<=".data
        (pyReplaceL "больше или равно".data ">=".data l)))

/-- `utils.compare_answers` inner helper `normalize_answer`:
`re.sub(r"\s+", "", ans)`, then `ans.replace("infinity", "inf")`,
then `re.sub(r"[()]+", "", ans)`. -/
def normalizeL (l : List Char) : List Char :=
  (pyReplaceL "infinity".data "inf".data (l.filter (fun c => !pyWs c))).filter
    (fun c => !(c = '(' || c = ')'))

/-- String wrapper for `normalize_answer`. -/
def normalize_answer (s : String) : String := ⟨normalizeL s.data⟩

/-- String wrapper for `replace_textual_operators`. -/
def replace_textual_operators (s : String) : String := ⟨replaceTextualL s.data⟩

/-- Python `x or ""` applied to an optional string (`None` and the empty
string both coalesce to the empty string). -/
def strOrEmpty : Option String → String
  | none => ""
  | some s => s

/-- The preprocessing `compare_answers` applies to each argument before
classification: `str(x or "").strip().lower()` followed by
`replace_textual_operators`. -/
def procL (l : List Char) : List Char := replaceTextualL (pyLowerL (pyStripL l))

def procOf (x : Option String) : List Char := procL (strOrEmpty x).data

/-- The fully normalized form of an argument (`user_norm` / `correct_norm`
in the source). -/
def normOf (x : Option String) : List Char := normalizeL (procOf x)

/-- Substring test, modelling Python's `in` on strings. -/
def hasInfix (pat : List Char) : List Char → Bool
  | [] => pat.isEmpty
  | x :: xs => pat.isPrefixOf (x :: xs) || hasInfix pat xs

/-- `any(op in user_norm for op in [">=", "<=", ">", "<"])`. -/
def opIn (l : List Char) : Bool :=
  hasInfix ['>', '='] l || hasInfix ['<', '='] l || hasInfix ['>'] l || hasInfix ['<'] l

/-- The letter-choice guard:
`len(correct_norm) == 1 and correct_norm in {"a","b","c","d"}`. -/
def letterB (l : List Char) : Bool :=
  decide (l.length = 1) &&
    (decide (l = ['a']) || decide (l = ['b']) || decide (l = ['c']) || decide (l = ['d']))

/-- `any(c in s for c in ["[", "]", "(", ")"])`. -/
def hasBracket (l : List Char) : Bool :=
  l.any (fun c => c = '[' || c = ']' || c = '(' || c = ')')

/-- Worker for `re.split(r"(?:and|or|,|;)", s)`: scan left to right,
splitting at the leftmost occurrence of any alternative (the alternatives
start with pairwise distinct characters, so regex alternation order is
immaterial). -/
def splitGo : List Char → List Char → List (List Char)
  | acc, [] => [acc.reverse]
  | acc, 'a' :: 'n' :: 'd' :: rest => acc.reverse :: splitGo [] rest
  | acc, 'o' :: 'r' :: rest => acc.reverse :: splitGo [] rest
  | acc, ',' :: rest => acc.reverse :: splitGo [] rest
  | acc, ';' :: rest => acc.reverse :: splitGo [] rest
  | acc, ch :: rest => splitGo (ch :: acc) rest

def splitAndOrL (l : List Char) : List (List Char) := splitGo [] l

/-- Worker for Python `s.split(",")` (keeps empty fields). -/
def splitCommaGo : List Char → List Char → List (List Char)
  | acc, [] => [acc.reverse]
  | acc, ch :: rest =>
    if ch = ',' then acc.reverse :: splitCommaGo [] rest
    else splitCommaGo (ch :: acc) rest

def splitCommaL (l : List Char) : List (List Char) := splitCommaGo [] l

/-- Python `sorted` on a list of strings: ascending lexicographic order by
code point.  Any linear order makes two sorted lists equal exactly when the
inputs are permutations of each other, which is all the comparator
observes. -/
def sortParts (l : List (List Char)) : List (List Char) :=
  List.insertionSort (· ≤ ·) l

/-- The inequality branch's clause list:
`sorted([normalize_answer(p) for p in re.split(..., s) if p])`. -/
def ineqParts (l : List Char) : List (List Char) :=
  sortParts (((splitAndOrL l).filter (fun p => !p.isEmpty)).map normalizeL)

/-- Python `set(a) == set(b)` for the comma branch: mutual containment. -/
def setEqB (a b : List (List Char)) : Bool :=
  a.all (fun x => b.contains x) && b.all (fun x => a.contains x)

/-- `s.replace(" ", "")` used by the interval branch: removes space
characters only (not tabs or other whitespace). -/
def removeSpaces (l : List Char) : List Char := l.filter (fun c => !(c = ' '))

-- sanity checks for the primitives
example : pyStripL "  ab ".data = "ab".data := by decide
example : replaceTextualL "больше или равно 3".data = ">= 3".data := by decide
example : normalizeL "[2, inf)".data = "[2,inf".data := by decide
example : splitAndOrL "x>=2,x<5".data = ["x>=2".data, "x<5".data] := by decide
example : splitAndOrL "x<5andx>=2".data = ["x<5".data, "x>=2".data] := by decide
example : splitCommaL "".data = [[]] := by decide
example : splitCommaL ",".data = [[], []] := by decide
example : sortParts ["x>=2".data, "x<5".data] = ["x<5".data, "x>=2".data] := by decide
example : opIn ">=3".data = true := by decide
example : letterB ['a'] = true ∧ letterB "ab".data = false := by decide

/-!
## A model of `eval` on arithmetic/comparison expressions

`compare_answers` feeds whitespace-free normalized strings to Python's
`eval` inside a `try`.  The model covers numeric literals (int and float,
including float-literal overflow to infinity), unary sign, `+ - * / **`
and a single comparison; every other input is an evaluation failure
(Python raises, the model returns `Except.error`).  Finite values are
exact fractions (an integer numerator over a positive natural
denominator, compared by cross-multiplication, so representations need
not be reduced); IEEE rounding of finite intermediate results is not
modelled, and the special values follow IEEE rules (`inf - inf = nan`,
comparisons with `nan` are false).  Python booleans returned by a
comparison behave numerically as 0/1 and are modelled that way.
-/

/-- An exact fraction `num / den`.  Every fraction the evaluator builds
has a positive denominator. -/
structure Frac where
  num : Int
  den : Nat
deriving DecidableEq

def fneg (x : Frac) : Frac := ⟨-x.num, x.den⟩

def fadd (x y : Frac) : Frac := ⟨x.num * (y.den : Int) + y.num * (x.den : Int), x.den * y.den⟩

def fmul (x y : Frac) : Frac := ⟨x.num * y.num, x.den * y.den⟩

/-- Division of fractions; the divisor's sign moves to the numerator so
the denominator stays positive.  Callers check for a zero divisor. -/
def fdiv (x y : Frac) : Frac :=
  if y.num < 0 then ⟨-(x.num * (y.den : Int)), x.den * (-y.num).toNat⟩
  else ⟨x.num * (y.den : Int), x.den * y.num.toNat⟩

def fabs (x : Frac) : Frac := ⟨|x.num|, x.den⟩

def fpow (x : Frac) (n : Nat) : Frac := ⟨x.num ^ n, x.den ^ n⟩

/-- Value comparison by cross-multiplication (denominators positive). -/
def fltB (x y : Frac) : Bool := decide (x.num * (y.den : Int) < y.num * (x.den : Int))

def fleB (x y : Frac) : Bool := decide (x.num * (y.den : Int) ≤ y.num * (x.den : Int))

def feqB (x y : Frac) : Bool := decide (x.num * (y.den : Int) = y.num * (x.den : Int))

inductive PyFloat where
  | fin (x : Frac)
  | pinf
  | ninf
  | pnan
deriving DecidableEq

def PyFloat.isFinite : PyFloat → Bool
  | .fin _ => true
  | _ => false

def pyNeg : PyFloat → PyFloat
  | .fin x => .fin (fneg x)
  | .pinf => .ninf
  | .ninf => .pinf
  | .pnan => .pnan

def pyAdd : PyFloat → PyFloat → PyFloat
  | .pnan, _ => .pnan
  | _, .pnan => .pnan
  | .fin a, .fin b => .fin (fadd a b)
  | .pinf, .ninf => .pnan
  | .ninf, .pinf => .pnan
  | .pinf, _ => .pinf
  | .ninf, _ => .ninf
  | _, .pinf => .pinf
  | _, .ninf => .ninf

def pySub (a b : PyFloat) : PyFloat := pyAdd a (pyNeg b)

def pyMul : PyFloat → PyFloat → PyFloat
  | .pnan, _ => .pnan
  | _, .pnan => .pnan
  | .fin a, .fin b => .fin (fmul a b)
  | .fin a, .pinf => if a.num = 0 then .pnan else if 0 < a.num then .pinf else .ninf
  | .fin a, .ninf => if a.num = 0 then .pnan else if 0 < a.num then .ninf else .pinf
  | .pinf, .fin b => if b.num = 0 then .pnan else if 0 < b.num then .pinf else .ninf
  | .ninf, .fin b => if b.num = 0 then .pnan else if 0 < b.num then .ninf else .pinf
  | .pinf, .pinf => .pinf
  | .pinf, .ninf => .ninf
  | .ninf, .pinf => .ninf
  | .ninf, .ninf => .pinf

/-- Division; dividing by (exact) zero models Python's `ZeroDivisionError`. -/
def pyDiv : PyFloat → PyFloat → Except Unit PyFloat
  | .pnan, .fin b => if b.num = 0 then .error () else .ok .pnan
  | .pnan, _ => .ok .pnan
  | _, .pnan => .ok .pnan
  | .fin a, .fin b => if b.num = 0 then .error () else .ok (.fin (fdiv a b))
  | .fin _, _ => .ok (.fin ⟨0, 1⟩)
  | .pinf, .fin b => if b.num = 0 then .error () else .ok (if 0 < b.num then .pinf else .ninf)
  | .ninf, .fin b => if b.num = 0 then .error () else .ok (if 0 < b.num then .ninf else .pinf)
  | _, _ => .ok .pnan

def pyAbs : PyFloat → PyFloat
  | .fin x => .fin (fabs x)
  | .pnan => .pnan
  | _ => .pinf

def pyLtB : PyFloat → PyFloat → Bool
  | .pnan, _ => false
  | _, .pnan => false
  | .fin a, .fin b => fltB a b
  | .fin _, .pinf => true
  | .fin _, .ninf => false
  | .pinf, _ => false
  | .ninf, .ninf => false
  | .ninf, _ => true

def pyLeB : PyFloat → PyFloat → Bool
  | .pnan, _ => false
  | _, .pnan => false
  | .fin a, .fin b => fleB a b
  | .fin _, .pinf => true
  | .fin _, .ninf => false
  | .pinf, .pinf => true
  | .pinf, _ => false
  | .ninf, _ => true

def pyEqB : PyFloat → PyFloat → Bool
  | .pnan, _ => false
  | _, .pnan => false
  | .fin a, .fin b => feqB a b
  | .pinf, .pinf => true
  | .ninf, .ninf => true
  | _, _ => false

/-- A Python boolean produced by a comparison, as the number it compares
and subtracts as (`True == 1`, `False == 0`). -/
def boolToPy (b : Bool) : PyFloat := .fin ⟨if b then 1 else 0, 1⟩

/-- Integer-exponent power (`**`); other exponents are outside the model
and yield an evaluation failure. -/
def pyPow : PyFloat → PyFloat → Except Unit PyFloat
  | .fin a, .fin b =>
    if b.num % (b.den : Int) = 0 then
      let k : Int := b.num / (b.den : Int)
      if 0 ≤ k then .ok (.fin (fpow a k.toNat))
      else if a.num = 0 then .error ()
      else .ok (.fin (fpow (fdiv ⟨1, 1⟩ a) (-k).toNat))
    else .error ()
  | _, _ => .error ()

/-- `abs(user_val - correct_val) < 1e-6` right-hand constant. -/
def tolLt (v : PyFloat) : Bool := pyLtB v (.fin ⟨1, 1000000⟩)

/-- Digit-run scanner: value, number of digits consumed, rest. -/
def digitsGo : List Char → Nat → Nat → Nat × Nat × List Char
  | [], v, n => (v, n, [])
  | c :: cs, v, n =>
    if c.isDigit then digitsGo cs (v * 10 + (c.toNat - 48)) (n + 1)
    else (v, n, c :: cs)

/-- Float-literal overflow: literals at or beyond 2^1024 become infinite,
as in CPython. -/
def overflowF (x : Frac) : PyFloat :=
  if fleB ⟨Int.ofNat (2 ^ 1024), 1⟩ x then .pinf
  else if fleB x ⟨-Int.ofNat (2 ^ 1024), 1⟩ then .ninf
  else .fin x

def mkNum (ip fp : Nat) (nfp : Nat) (floaty : Bool) (e : Int) : PyFloat :=
  let n : Nat := ip * 10 ^ nfp + fp
  let x : Frac :=
    if 0 ≤ e then ⟨Int.ofNat (n * 10 ^ e.toNat), 10 ^ nfp⟩
    else ⟨Int.ofNat n, 10 ^ nfp * 10 ^ (-e).toNat⟩
  if floaty then overflowF x else .fin x

/-- Numeric-literal parser: `digits [. digits] [(e|E) [+|-] digits]`,
requiring at least one digit in the integer-or-fraction part and at least
one exponent digit when an exponent marker is present. -/
def parseNumber (l : List Char) : Option (PyFloat × List Char) :=
  let (ip, nip, r1) := digitsGo l 0 0
  let (fp, nfp, hasDot, r2) :=
    match r1 with
    | '.' :: r =>
      let (fv, fn, rr) := digitsGo r 0 0
      (fv, fn, true, rr)
    | _ => (0, 0, false, r1)
  if nip = 0 ∧ nfp = 0 then none
  else
    match r2 with
    | 'e' :: r3 =>
      match r3 with
      | '+' :: r4 =>
        let (ev, en, r5) := digitsGo r4 0 0
        if en = 0 then none else some (mkNum ip fp nfp true (ev : Int), r5)
      | '-' :: r4 =>
        let (ev, en, r5) := digitsGo r4 0 0
        if en = 0 then none else some (mkNum ip fp nfp true (-(ev : Int)), r5)
      | r4 =>
        let (ev, en, r5) := digitsGo r4 0 0
        if en = 0 then none else some (mkNum ip fp nfp true (ev : Int), r5)
    | 'E' :: r3 =>
      match r3 with
      | '+' :: r4 =>
        let (ev, en, r5) := digitsGo r4 0 0
        if en = 0 then none else some (mkNum ip fp nfp true (ev : Int), r5)
      | '-' :: r4 =>
        let (ev, en, r5) := digitsGo r4 0 0
        if en = 0 then none else some (mkNum ip fp nfp true (-(ev : Int)), r5)
      | r4 =>
        let (ev, en, r5) := digitsGo r4 0 0
        if en = 0 then none else some (mkNum ip fp nfp true (ev : Int), r5)
    | _ => some (mkNum ip fp nfp hasDot 0, r2)

mutual

/-- Unary-signed factor (`-x`, `+x`, or a power). -/
def parseFactor : Nat → List Char → Option (PyFloat × List Char)
  | 0, _ => none
  | Nat.succ f, l =>
    match l with
    | '-' :: r =>
      match parseFactor f r with
      | some (v, rest) => some (pyNeg v, rest)
      | none => none
    | '+' :: r => parseFactor f r
    | _ => parsePower f l

/-- A number optionally followed by `** factor` (right associative, and
binding tighter than unary minus, as in Python). -/
def parsePower : Nat → List Char → Option (PyFloat × List Char)
  | 0, _ => none
  | Nat.succ f, l =>
    match parseNumber l with
    | none => none
    | some (v, rest) =>
      match rest with
      | '*' :: '*' :: r2 =>
        match parseFactor f r2 with
        | some (w, rest2) =>
          match pyPow v w with
          | .ok x => some (x, rest2)
          | .error _ => none
        | none => none
      | _ => some (v, rest)

end

def parseTermLoop : Nat → PyFloat → List Char → Option (PyFloat × List Char)
  | 0, _, _ => none
  | Nat.succ f, acc, l =>
    match l with
    | '*' :: r =>
      match parseFactor f r with
      | some (w, rest) => parseTermLoop f (pyMul acc w) rest
      | none => none
    | '/' :: r =>
      match parseFactor f r with
      | some (w, rest) =>
        match pyDiv acc w with
        | .ok x => parseTermLoop f x rest
        | .error _ => none
      | none => none
    | _ => some (acc, l)

def parseTerm : Nat → List Char → Option (PyFloat × List Char)
  | 0, _ => none
  | Nat.succ f, l =>
    match parseFactor f l with
    | some (v, rest) => parseTermLoop f v rest
    | none => none

def parseArithLoop : Nat → PyFloat → List Char → Option (PyFloat × List Char)
  | 0, _, _ => none
  | Nat.succ f, acc, l =>
    match l with
    | '+' :: r =>
      match parseTerm f r with
      | some (w, rest) => parseArithLoop f (pyAdd acc w) rest
      | none => none
    | '-' :: r =>
      match parseTerm f r with
      | some (w, rest) => parseArithLoop f (pySub acc w) rest
      | none => none
    | _ => some (acc, l)

def parseArith : Nat → List Char → Option (PyFloat × List Char)
  | 0, _ => none
  | Nat.succ f, l =>
    match parseTerm f l with
    | some (v, rest) => parseArithLoop f v rest
    | none => none

/-- Arithmetic expression optionally followed by one comparison operator
and a second arithmetic expression (chained comparisons are outside the
model). -/
def parseCmp : Nat → List Char → Option (PyFloat × List Char)
  | 0, _ => none
  | Nat.succ f, l =>
    match parseArith f l with
    | none => none
    | some (v, rest) =>
      match rest with
      | '>' :: '=' :: r =>
        match parseArith f r with
        | some (w, rest2) => some (boolToPy (pyLeB w v), rest2)
        | none => none
      | '<' :: '=' :: r =>
        match parseArith f r with
        | some (w, rest2) => some (boolToPy (pyLeB v w), rest2)
        | none => none
      | '=' :: '=' :: r =>
        match parseArith f r with
        | some (w, rest2) => some (boolToPy (pyEqB v w), rest2)
        | none => none
      | '!' :: '=' :: r =>
        match parseArith f r with
        | some (w, rest2) => some (boolToPy (!pyEqB v w), rest2)
        | none => none
      | '>' :: r =>
        match parseArith f r with
        | some (w, rest2) => some (boolToPy (pyLtB w v), rest2)
        | none => none
      | '<' :: r =>
        match parseArith f r with
        | some (w, rest2) => some (boolToPy (pyLtB v w), rest2)
        | none => none
      | _ => some (v, rest)

/-- The model of `eval` as used by the comparator's fraction branch:
parse a full expression; anything unconsumed or unparseable is an
evaluation failure (an exception in Python). -/
def pyEvalL (l : List Char) : Except Unit PyFloat :=
  match parseCmp (4 * l.length + 16) l with
  | some (v, []) => .ok v
  | _ => .error ()

deriving instance DecidableEq for Except

-- sanity checks for the eval model
example : pyEvalL "1/2".data = .ok (.fin ⟨1, 2⟩) := by decide
example : (pyEvalL "0.5".data).toOption.map (fun v => pyEqB v (.fin ⟨1, 2⟩)) = some true := by
  decide
example : (pyEvalL "0.34".data).toOption.map (fun v => pyEqB v (.fin ⟨17, 50⟩)) = some true := by
  decide
example : (pyEvalL "2>1".data).toOption.map (fun v => pyEqB v (.fin ⟨1, 1⟩)) = some true := by
  decide
example : pyEvalL "".data = .error () := by decide
example : pyEvalL ">=2".data = .error () := by decide
example : (pyEvalL "2**3".data).toOption.map (fun v => pyEqB v (.fin ⟨8, 1⟩)) = some true := by
  decide
example : (pyEvalL "-2**2".data).toOption.map (fun v => pyEqB v (.fin ⟨-4, 1⟩)) = some true := by
  decide
example : pyEvalL "1e999/1".data = .ok .pinf := by decide

/-!
## The comparator `utils.compare_answers`

A direct transcription of the source: preprocess both arguments
(`str(x or "").strip().lower()` plus textual-operator substitution),
normalize, then classify in source order — letter choice, inequality
(triggered by the user string only), brackets, comma sets, fraction
evaluation with silent fallback, and plain equality.
-/

def compare_answers (user correct : Option String) : Bool :=
  if letterB (normOf correct) then
    decide ((normOf user).take 1 = normOf correct)
  else if opIn (normOf user) then
    decide (ineqParts (normOf user) = ineqParts (normOf correct))
  else if hasBracket (procOf user) || hasBracket (procOf correct) then
    decide (removeSpaces (procOf user) = removeSpaces (procOf correct))
  else if (normOf user).contains ',' || (normOf correct).contains ',' then
    setEqB (splitCommaL (normOf user)) (splitCommaL (normOf correct))
  else if (normOf user).contains '/' || (normOf correct).contains '/' then
    match pyEvalL (normOf user), pyEvalL (normOf correct) with
    | Except.ok a, Except.ok b => tolLt (pyAbs (pySub a b))
    | _, _ => decide (normOf user = normOf correct)
  else
    decide (normOf user = normOf correct)

-- behavioural sanity checks (each traced against the Python source)
example : compare_answers (some "x>=2, x<5") (some "x<5 and x>=2") = true := by decide
example : compare_answers (some "больше или равно 3") (some ">=3") = true := by decide
example : compare_answers (some ">=3") (some "больше или равно 3") = true := by decide
example : compare_answers (some "[2, inf)") (some "[2,inf)") = true := by decide
example : compare_answers (some "[2, inf)") (some "(2, inf)") = false := by decide
example : compare_answers (some "1/2") (some "0.5") = true := by decide
example : compare_answers (some "1/3") (some "0.34") = false := by decide
example : compare_answers (some "2,-2") (some "-2,2") = true := by decide
example : compare_answers (some "2,-2,0") (some "-2,2") = false := by decide
example : compare_answers (some "A") (some "a)") = true := by decide
example : compare_answers (some "b") (some "A") = false := by decide
example : compare_answers (some "") (some "5") = false := by decide
example : compare_answers none (some "5") = false := by decide
-- divergences from the specification, traced in the source
example : compare_answers (some "") (some "") = true := by decide
example : compare_answers (some "") (some ",") = true := by decide
example : compare_answers (some "5") (some "56") = false := by decide
example : compare_answers (some "1/1") (some "2>1") = true := by decide
example : compare_answers (some "1e999/1") (some "1e999/1") = false := by decide
example : compare_answers (some "[2,\tinf)") (some "[2, inf)") = false := by decide
example : compare_answers (some "a>=b") (some "a") = true := by decide

/-!
## The quiz-content validator (`ensureQuestionCount`)

The snapshot under verification calls its quiz generator and falls back to
a fixed offline question set, but the validated-generation component the
specification names `ensureQuestionCount` (placeholder backfill, option
prefixing, positional truncation) is not part of this snapshot's sources;
it is modelled here from the specification's §4.2 quiz-normalization
algorithm.
-/

/-- A loosely-typed raw generation record (untrusted shape). -/
structure RawQuestion where
  question : Option String
  options : Option (List String)
  correct_answer : Option String
  explanation : Option String
deriving DecidableEq

/-- A validated quiz item (trusted shape). -/
structure GeneratedQuestion where
  question : String
  options : List String
  correct_answer : Char
  explanation : String
deriving DecidableEq

def toUpperChar (c : Char) : Char :=
  if 'a' ≤ c ∧ c ≤ 'z' then Char.ofNat (c.toNat - 32) else c

/-- Modelled from the spec: option-text normalization — if the option does
not already carry its expected letter prefix (`"A)"` …, case-insensitive),
prepend `"{Letter}) "`; options are never reordered. -/
def prefixOption (letter : Char) (s : String) : String :=
  match s.data with
  | c1 :: c2 :: r =>
    if (c1 = letter ∨ c1 = pyLowerChar letter) ∧ c2 = ')' then ⟨c1 :: c2 :: r⟩
    else ⟨letter :: ')' :: ' ' :: c1 :: c2 :: r⟩
  | l => ⟨letter :: ')' :: ' ' :: l⟩

def prefixOptions (opts : List String) : List String :=
  (List.zip ['A', 'B', 'C', 'D'] opts).map (fun p => prefixOption p.1 p.2)

/-- Modelled from the spec: per-item validation — an item is accepted only
with exactly 4 options and a correct letter whose uppercased first
character is in {A,B,C,D} (malformed items are dropped, not coerced);
missing question/explanation text defaults to the empty string. -/
def validateItem : RawQuestion → Option GeneratedQuestion
  | ⟨q, some opts, some ⟨c :: _⟩, ex⟩ =>
    if opts.length = 4 ∧ (toUpperChar c = 'A' ∨ toUpperChar c = 'B' ∨ toUpperChar c = 'C' ∨
        toUpperChar c = 'D') then
      some ⟨q.getD "", prefixOptions opts, toUpperChar c, ex.getD ""⟩
    else none
  | _ => none

/-- Modelled from the spec: the synthetic placeholder question used to
backfill a shortfall (fixed text naming the topic, em-dash options,
letter A correct, sentinel explanation). -/
def placeholderQuestion (label : String) : GeneratedQuestion :=
  ⟨"Вопрос недоступен по теме: " ++ label, ["A) —", "B) —", "C) —", "D) —"], 'A', "—"⟩

/-- Modelled from the spec: `ensureQuestionCount` — validate and normalize
raw items, truncate positionally to the first `target` accepted items, and
append placeholders to cover any shortfall, returning exactly `target`
well-formed questions. -/
def ensureQuestionCount (raw : List RawQuestion) (target : Nat) (label : String) :
    List GeneratedQuestion :=
  (raw.filterMap validateItem).take target ++
    List.replicate (target - ((raw.filterMap validateItem).take target).length)
      (placeholderQuestion label)

example : ensureQuestionCount [] 5 "Topic" = List.replicate 5 (placeholderQuestion "Topic") := by
  decide
example :
    ensureQuestionCount
      [⟨some "Q", some ["one", "B) two", "c) three", "D)four"], some "b", some "E"⟩] 2 "T" =
    [⟨"Q", ["A) one", "B) two", "c) three", "D)four"], 'B', "E"⟩,
      placeholderQuestion "T"] := by decide

/-!
## Lemmas: the inequality branch on compound clauses
-/

/-- Characters from which inequality clauses can safely be built: they are
untouched by lowering, stripping, textual substitution and normalization,
and never begin or continue a clause separator. -/
def safeChar (c : Char) : Bool :=
  (['0', '1', '2', '3', '4', '5', '6', '7', '8', '9', 'x', 'y', 'z', '<', '>', '=',
    '.', '-', '+', '*', '/'] : List Char).contains c

theorem safeChar_spec {c : Char} (h : safeChar c = true) :
    (!pyWs c) = true ∧ (!(c = '(' || c = ')')) = true ∧ ¬ c = 'i' ∧ ¬ c = 'a' ∧
      ¬ c = 'o' ∧ ¬ c = ',' ∧ ¬ c = ';' := by
  have hm : c ∈ (['0', '1', '2', '3', '4', '5', '6', '7', '8', '9', 'x', 'y', 'z', '<', '>',
      '=', '.', '-', '+', '*', '/'] : List Char) := by
    simpa [safeChar] using h
  fin_cases hm <;> decide

/-- A separator token the regex `and|or|,|;` splits on. -/
def SepTok (s : List Char) : Prop :=
  s = ['a', 'n', 'd'] ∨ s = ['o', 'r'] ∨ s = [','] ∨ s = [';']

/-- A non-empty inequality clause over safe characters containing a
relational operator character. -/
def SafeClause (cl : List Char) : Prop :=
  cl ≠ [] ∧ (∀ c ∈ cl, safeChar c = true) ∧ (∃ c ∈ cl, c = '>' ∨ c = '<')

instance : DecidablePred SafeClause := fun cl => by
  unfold SafeClause
  infer_instance

instance : DecidablePred SepTok := fun s => by
  unfold SepTok
  infer_instance

/-- Interleave clauses and separators (`length cs = length ss + 1`). -/
def joinL : List (List Char) → List (List Char) → List Char
  | [], _ => []
  | c :: cs, s :: ss => c ++ s ++ joinL cs ss
  | c :: _, [] => c

theorem sortParts_perm {a b : List (List Char)} (h : a.Perm b) : sortParts a = sortParts b := by
  refine List.eq_of_perm_of_sorted ?_ (List.sorted_insertionSort _ _)
    (List.sorted_insertionSort _ _)
  exact ((List.perm_insertionSort _ a).trans h).trans (List.perm_insertionSort _ b).symm

theorem splitGo_safe {ch : Char} (h : safeChar ch = true) (acc rest : List Char) :
    splitGo acc (ch :: rest) = splitGo (ch :: acc) rest := by
  obtain ⟨-, -, -, ha, ho, hc, hs⟩ := safeChar_spec h
  rw [splitGo.eq_def]
  split
  all_goals simp_all

theorem splitGo_clause {cl : List Char} (h : ∀ c ∈ cl, safeChar c = true)
    (acc rest : List Char) : splitGo acc (cl ++ rest) = splitGo (cl.reverse ++ acc) rest := by
  induction cl generalizing acc with
  | nil => simp
  | cons x xs ih =>
    have hx : safeChar x = true := h x (by simp)
    rw [List.cons_append, splitGo_safe hx, ih (fun c hc => h c (by simp [hc]))]
    simp

theorem splitGo_sep {s : List Char} (hs : SepTok s) (acc rest : List Char) :
    splitGo acc (s ++ rest) = acc.reverse :: splitGo [] rest := by
  rcases hs with h | h | h | h <;> subst h <;> rfl

theorem splitAndOr_join :
    ∀ (ss cs : List (List Char)),
      (∀ x ∈ cs, ∀ c ∈ x, safeChar c = true) → (∀ s ∈ ss, SepTok s) →
      cs.length = ss.length + 1 → splitAndOrL (joinL cs ss) = cs := by
  intro ss
  induction ss with
  | nil =>
    intro cs hsafe _ hlen
    match cs, hlen with
    | [c], _ =>
      show splitGo [] (joinL [c] []) = [c]
      have hj : joinL [c] [] = c ++ [] := by simp [joinL]
      rw [hj, splitGo_clause (hsafe c (by simp))]
      simp [splitGo]
  | cons s ss ih =>
    intro cs hsafe hsep hlen
    match cs, hlen with
    | c :: cs', hlen =>
      have hlen' : cs'.length = ss.length + 1 := by simpa using hlen
      show splitGo [] (joinL (c :: cs') (s :: ss)) = c :: cs'
      have hj : joinL (c :: cs') (s :: ss) = c ++ (s ++ joinL cs' ss) := by simp [joinL]
      rw [hj, splitGo_clause (hsafe c (by simp)), splitGo_sep (hsep s (by simp))]
      simp only [List.append_nil, List.reverse_reverse]
      exact congrArg (c :: ·)
        (ih cs' (fun x hx => hsafe x (by simp [hx])) (fun t ht => hsep t (by simp [ht])) hlen')

theorem replGo_no_first {p : Char} {pr rep : List Char} :
    ∀ (fuel : Nat) (l : List Char), (∀ c ∈ l, ¬ c = p) →
      replGo (p :: pr) rep fuel l = l := by
  intro fuel
  induction fuel with
  | zero => intro l _; cases l <;> rfl
  | succ f ih =>
    intro l hl
    cases l with
    | nil => rfl
    | cons x xs =>
      have hx : ¬ x = p := hl x (by simp)
      have hpre : (p :: pr).isPrefixOf (x :: xs) = false := by
        simp [List.isPrefixOf]
        intro hpx
        exact absurd hpx.symm hx
      rw [replGo, if_neg (by simp [hpre]), ih xs (fun c hc => hl c (by simp [hc]))]

theorem normalizeL_safe {l : List Char} (h : ∀ c ∈ l, safeChar c = true) :
    normalizeL l = l := by
  have hws : l.filter (fun c => !pyWs c) = l :=
    List.filter_eq_self.mpr (fun c hc => (safeChar_spec (h c hc)).1
  )
  have hinf : pyReplaceL "infinity".data "inf".data l = l := by
    unfold pyReplaceL
    exact replGo_no_first _ l (fun c hc => (safeChar_spec (h c hc)).2.2.1)
  have hpar : l.filter (fun c => !(c = '(' || c = ')')) = l :=
    List.filter_eq_self.mpr (fun c hc => (safeChar_spec (h c hc)).2.1)
  unfold normalizeL
  rw [hws, hinf, hpar]

theorem hasInfix_singleton {c : Char} : ∀ {l : List Char}, c ∈ l → hasInfix [c] l = true := by
  intro l hl
  induction l with
  | nil => cases hl
  | cons x xs ih =>
    rcases List.mem_cons.mp hl with h | h
    · subst h
      simp [hasInfix, List.isPrefixOf]
    · simp [hasInfix, ih h]

theorem opIn_of_mem {c : Char} {l : List Char} (hm : c ∈ l) (hc : c = '>' ∨ c = '<') :
    opIn l = true := by
  rcases hc with rfl | rfl
  · simp [opIn, hasInfix_singleton hm]
  · simp [opIn, hasInfix_singleton hm]

theorem letterB_eq_true_iff {l : List Char} :
    letterB l = true ↔ l = ['a'] ∨ l = ['b'] ∨ l = ['c'] ∨ l = ['d'] := by
  constructor
  · intro h
    simp only [letterB, Bool.and_eq_true, Bool.or_eq_true, decide_eq_true_eq] at h
    tauto
  · rintro (rfl | rfl | rfl | rfl) <;> decide

theorem letterB_eq_false_of_op {c : Char} {l : List Char} (hm : c ∈ l)
    (hc : c = '>' ∨ c = '<') : letterB l = false := by
  rcases hb : letterB l with _ | _
  · rfl
  · exfalso
    rcases letterB_eq_true_iff.mp hb with rfl | rfl | rfl | rfl <;>
      (rcases List.mem_singleton.mp hm with rfl <;> rcases hc with h | h <;> simp at h)

theorem mem_joinL_head {x : Char} {c : List Char} (cs ss : List (List Char)) (hx : x ∈ c) :
    x ∈ joinL (c :: cs) ss := by
  cases ss with
  | nil => exact hx
  | cons s ss => exact List.mem_append_left _ (List.mem_append_left _ hx)

theorem ineqParts_join (cs ss : List (List Char)) (hcl : ∀ x ∈ cs, SafeClause x)
    (hsep : ∀ s ∈ ss, SepTok s) (hlen : cs.length = ss.length + 1) :
    ineqParts (joinL cs ss) = sortParts cs := by
  unfold ineqParts
  rw [splitAndOr_join ss cs (fun x hx => (hcl x hx).2.1) hsep hlen]
  have hfilter : cs.filter (fun p => !p.isEmpty) = cs :=
    List.filter_eq_self.mpr (fun p hp => by
      simpa [List.isEmpty_iff] using (hcl p hp).1)
  have hmap : cs.map normalizeL = cs := by
    have h1 : cs.map normalizeL = cs.map id :=
      List.map_congr_left (fun a ha => normalizeL_safe (hcl a ha).2.1)
    simpa using h1
  rw [hfilter, hmap]

/-- Branch lemma: with the letter-choice guard false and an operator in the
normalized user string, the comparison is the inequality branch's
sorted-clause equality. -/
theorem compare_ineq_branch (u c : Option String)
    (hletter : letterB (normOf c) = false) (hop : opIn (normOf u) = true) :
    compare_answers u c = decide (ineqParts (normOf u) = ineqParts (normOf c)) := by
  unfold compare_answers
  rw [if_neg (by simp [hletter]), if_pos (by simp [hop])]

/-- C1 (amended): whenever the normalized user string contains an
inequality operator and the letter-choice branch does not fire (the
normalized correct answer is not a single letter a–d), `compare_answers`
decides the comparison by the inequality branch: split both strings on
`and`/`or`/`,`/`;`, normalize and sort the non-empty clause lists, and
compare them for exact equality — even when the strings also contain
commas.  Operator detection inspects only the user string. -/
theorem C1_ineq_routing_amended (u c : Option String)
    (hletter : letterB (normOf c) = false) (hop : opIn (normOf u) = true) :
    compare_answers u c = decide (ineqParts (normOf u) = ineqParts (normOf c)) :=
  compare_ineq_branch u c hletter hop

theorem C1_ineq_routing_witness :
    letterB (normOf (some "x<5 and x>=2")) = false ∧
      opIn (normOf (some "x>=2, x<5")) = true ∧
      compare_answers (some "x>=2, x<5") (some "x<5 and x>=2") =
        decide (ineqParts (normOf (some "x>=2, x<5")) = ineqParts (normOf (some "x<5 and x>=2"))) :=
  ⟨by decide, by decide,
    C1_ineq_routing_amended (some "x>=2, x<5") (some "x<5 and x>=2") (by decide) (by decide)⟩

/-- C1 (counterexample): the claim that an inequality operator in *either*
normalized string routes the comparison to the inequality branch is false:
for user `"1/1"` and correct `"2>1"` the correct string contains `>`, yet
`compare_answers` returns `true` via the fraction-evaluation branch
(`eval("2>1")` is the boolean `True`, numerically `1`), while the
inequality branch's sorted-clause comparison would return `false`. -/
theorem C1_ineq_routing_counterexample :
    opIn (normOf (some "2>1")) = true ∧
      compare_answers (some "1/1") (some "2>1") = true ∧
      decide (ineqParts (normOf (some "1/1")) = ineqParts (normOf (some "2>1"))) = false :=
  ⟨by decide, by decide, by decide⟩

/-- C3: compound inequality comparison is order-independent — for any two
answers whose normalized forms consist of the same inequality clauses (in
either order) joined by any of the separators `and`/`or`/`,`/`;`,
`compare_answers` returns `true`; in particular
`compare_answers("x>=2, x<5", "x<5 and x>=2") = true`. -/
theorem C3_ineq_order_independent (u c : Option String) (cs es ss ts : List (List Char))
    (hperm : cs.Perm es)
    (hcl : ∀ x ∈ cs, SafeClause x)
    (hss : ∀ s ∈ ss, SepTok s) (hts : ∀ t ∈ ts, SepTok t)
    (hl1 : cs.length = ss.length + 1) (hl2 : es.length = ts.length + 1)
    (hu : normOf u = joinL cs ss) (hc : normOf c = joinL es ts) :
    compare_answers u c = true := by
  have hcl' : ∀ x ∈ es, SafeClause x := fun x hx => hcl x (hperm.mem_iff.mpr hx)
  obtain ⟨e, es', rfl⟩ : ∃ e es', es = e :: es' := by
    cases es with
    | nil => simp at hl2
    | cons e es' => exact ⟨e, es', rfl⟩
  obtain ⟨c1, cs', rfl⟩ : ∃ c1 cs', cs = c1 :: cs' := by
    cases cs with
    | nil => simp at hl1
    | cons c1 cs' => exact ⟨c1, cs', rfl⟩
  obtain ⟨-, -, ch, hch, hchop⟩ := hcl' e (by simp)
  obtain ⟨-, -, ch1, hch1, hch1op⟩ := hcl c1 (by simp)
  have hletter : letterB (normOf c) = false := by
    rw [hc]
    exact letterB_eq_false_of_op (mem_joinL_head es' ts hch) hchop
  have hop : opIn (normOf u) = true := by
    rw [hu]
    exact opIn_of_mem (mem_joinL_head cs' ss hch1) hch1op
  rw [compare_ineq_branch u c hletter hop, hu, hc,
    ineqParts_join _ ss hcl hss hl1, ineqParts_join _ ts hcl' hts hl2,
    sortParts_perm hperm]
  simp

theorem C3_ineq_order_independent_witness :
    compare_answers (some "x>=2, x<5") (some "x<5 and x>=2") = true :=
  C3_ineq_order_independent (some "x>=2, x<5") (some "x<5 and x>=2")
    ["x>=2".data, "x<5".data] ["x<5".data, "x>=2".data] [[',']] [['a', 'n', 'd']]
    (by decide) (by decide) (by decide) (by decide) (by decide) (by decide)
    (by decide) (by decide)

/-!
## Lemmas: the comma branch and the empty user answer
-/

theorem contains_iff_memC {c : Char} {l : List Char} : l.contains c = true ↔ c ∈ l := by
  simp [List.contains, List.elem_iff]

theorem contains_iff_memL {p : List Char} {l : List (List Char)} :
    l.contains p = true ↔ p ∈ l := by
  simp [List.contains, List.elem_iff]

theorem setEqB_refl (l : List (List Char)) : setEqB l l = true := by
  simp only [setEqB, Bool.and_eq_true, List.all_eq_true]
  exact ⟨fun x hx => contains_iff_memL.mpr hx, fun x hx => contains_iff_memL.mpr hx⟩

theorem splitCommaGo_ne_nil : ∀ (l acc : List Char), splitCommaGo acc l ≠ [] := by
  intro l
  induction l with
  | nil => intro acc; simp [splitCommaGo]
  | cons x xs ih =>
    intro acc
    by_cases h : x = ','
    · simp [splitCommaGo, h]
    · simpa [splitCommaGo, h] using ih (x :: acc)

theorem splitCommaGo_all_comma :
    ∀ (l : List Char), (∀ ch ∈ l, ch = ',') → ∀ p ∈ splitCommaGo [] l, p = [] := by
  intro l
  induction l with
  | nil =>
    intro _ p hp
    simpa [splitCommaGo] using hp
  | cons x xs ih =>
    intro h p hp
    have hx : x = ',' := h x (by simp)
    rw [splitCommaGo, if_pos hx] at hp
    rcases List.mem_cons.mp hp with h1 | h1
    · simpa using h1
    · exact ih (fun ch hc => h ch (by simp [hc])) p h1

theorem splitCommaGo_acc_mem :
    ∀ (l acc : List Char) (ch : Char), ch ∈ acc → ∃ p ∈ splitCommaGo acc l, ch ∈ p := by
  intro l
  induction l with
  | nil =>
    intro acc ch hch
    exact ⟨acc.reverse, by simp [splitCommaGo], by simpa using hch⟩
  | cons x xs ih =>
    intro acc ch hch
    by_cases hx : x = ','
    · refine ⟨acc.reverse, ?_, by simpa using hch⟩
      rw [splitCommaGo, if_pos hx]
      simp
    · obtain ⟨p, hp, hchp⟩ := ih (x :: acc) ch (by simp [hch])
      refine ⟨p, ?_, hchp⟩
      rw [splitCommaGo, if_neg hx]
      exact hp

theorem splitCommaGo_mem_of_mem :
    ∀ (l acc : List Char) (ch : Char), ch ∈ l → ¬ ch = ',' →
      ∃ p ∈ splitCommaGo acc l, ch ∈ p := by
  intro l
  induction l with
  | nil => intro acc ch hch; cases hch
  | cons x xs ih =>
    intro acc ch hch hne
    rcases List.mem_cons.mp hch with rfl | hmem
    · have hx : ¬ ch = ',' := hne
      obtain ⟨p, hp, hchp⟩ := splitCommaGo_acc_mem xs (ch :: acc) ch (by simp)
      refine ⟨p, ?_, hchp⟩
      rw [splitCommaGo, if_neg hx]
      exact hp
    · by_cases hx : x = ','
      · obtain ⟨p, hp, hchp⟩ := ih [] ch hmem hne
        refine ⟨p, ?_, hchp⟩
        rw [splitCommaGo, if_pos hx]
        exact List.mem_cons_of_mem _ hp
      · obtain ⟨p, hp, hchp⟩ := ih (x :: acc) ch hmem hne
        refine ⟨p, ?_, hchp⟩
        rw [splitCommaGo, if_neg hx]
        exact hp

theorem setEqB_empty_iff (l : List Char) :
    setEqB [[]] (splitCommaL l) = true ↔ ∀ ch ∈ l, ch = ',' := by
  constructor
  · intro h ch hch
    by_contra hne
    obtain ⟨p, hp, hchp⟩ := splitCommaGo_mem_of_mem l [] ch hch hne
    simp only [setEqB, Bool.and_eq_true, List.all_eq_true] at h
    have := contains_iff_memL.mp (h.2 p hp)
    have hpn : p = [] := by simpa using this
    rw [hpn] at hchp
    cases hchp
  · intro h
    have hparts : ∀ p ∈ splitCommaL l, p = [] := splitCommaGo_all_comma l h
    simp only [setEqB, Bool.and_eq_true, List.all_eq_true]
    constructor
    · intro x hx
      have hx0 : x = [] := by simpa using hx
      subst hx0
      rcases hne : splitCommaL l with _ | ⟨p, ps⟩
      · exact absurd hne (splitCommaGo_ne_nil l [])
      · have : p = [] := hparts p (by rw [hne]; simp)
        subst this
        rw [contains_iff_memL]
        simp
    · intro p hp
      rw [contains_iff_memL]
      simp [hparts p hp]

theorem removeSpaces_ne_nil_of_bracket {l : List Char} (h : hasBracket l = true) :
    ¬ removeSpaces l = [] := by
  simp only [hasBracket, List.any_eq_true] at h
  obtain ⟨c, hc, hcb⟩ := h
  have hcs : ¬ (c = ' ') := by
    rcases Bool.or_eq_true .. |>.mp hcb with h1 | h1
    · rcases Bool.or_eq_true .. |>.mp h1 with h2 | h2
      · rcases Bool.or_eq_true .. |>.mp h2 with h3 | h3 <;>
          (simp only [decide_eq_true_eq] at h3; subst h3; decide)
      · simp only [decide_eq_true_eq] at h2; subst h2; decide
    · simp only [decide_eq_true_eq] at h1; subst h1; decide
  intro he
  have : c ∈ removeSpaces l := List.mem_filter.mpr ⟨hc, by simpa using hcs⟩
  rw [he] at this
  cases this

/-- C2 (amended): an empty user answer is rejected except against
degenerate correct answers — `compare_answers("", c)` is `true` exactly
when `c` carries no bracket character (after preprocessing) and every
character of `c`'s normalized form is a comma; in particular
`compare_answers("", "")` and `compare_answers("", ",")` are `true`, while
any correct answer whose normalized form contains a non-comma character is
rejected. -/
theorem C2_empty_user_amended (c : Option String) :
    compare_answers (some "") c = true ↔
      (hasBracket (procOf c) = false ∧ ∀ ch ∈ normOf c, ch = ',') := by
  have hB0 : hasBracket (procOf (some "")) = false := by decide
  have hC0 : (normOf (some "")).contains ',' = false := by decide
  have hS0 : (normOf (some "")).contains '/' = false := by decide
  unfold compare_answers
  rcases hL : letterB (normOf c) with _ | _
  · rw [if_neg (by simp [hL]), if_neg (by decide)]
    rcases hB : hasBracket (procOf c) with _ | _
    · rw [if_neg (by simp [hB0, hB])]
      rcases hC : (normOf c).contains ',' with _ | _
      · rw [if_neg (by simp [hC0, hC] <;> decide)]
        rcases hS : (normOf c).contains '/' with _ | _
        · rw [if_neg (by simp [hS0, hS] <;> decide)]
          simp only [hB, decide_eq_true_eq, true_and]
          constructor
          · intro h
            rw [show normOf (some "") = [] from rfl] at h
            rw [← h]
            intro ch hch
            cases hch
          · intro hall
            rcases hn : normOf c with _ | ⟨ch, rest⟩
            · rfl
            · exfalso
              have : ch = ',' := hall ch (by rw [hn]; simp)
              subst this
              have : (normOf c).contains ',' = true :=
                contains_iff_memC.mpr (by rw [hn]; simp)
              rw [this] at hC
              cases hC
        · rw [if_pos (by simp [hS])]
          have hev : pyEvalL (normOf (some "")) = Except.error () := by decide
          rw [hev]
          have hslash : '/' ∈ normOf c := contains_iff_memC.mp hS
          have hne : ¬ (normOf (some "") = normOf c) := by
            rw [show normOf (some "") = [] from rfl]
            intro h
            rw [← h] at hslash
            cases hslash
          have hnall : ¬ (∀ ch ∈ normOf c, ch = ',') := by
            intro hall
            have := hall '/' hslash
            simp at this
          rcases hc2 : pyEvalL (normOf c) with e | v
          · simp [hne, hnall]
          · simp [hne, hnall]
      · rw [if_pos (by simp [hC])]
        rw [show splitCommaL (normOf (some "")) = [[]] from rfl, setEqB_empty_iff]
        simp [hB]
    · rw [if_pos (by simp [hB])]
      have h1 : removeSpaces (procOf (some "")) = [] := by decide
      have h2 : ¬ removeSpaces (procOf c) = [] := removeSpaces_ne_nil_of_bracket hB
      simp only [hB, Bool.true_eq_false, false_and, iff_false]
      simp only [h1, decide_eq_true_eq]
      intro h
      exact h2 h.symm
  · rw [if_pos (by simp [hL])]
    have hR : ¬ (∀ ch ∈ normOf c, ch = ',') := by
      intro hall
      rcases letterB_eq_true_iff.mp hL with h1 | h1 | h1 | h1 <;>
        · have := hall _ (by rw [h1]; exact List.mem_singleton_self _)
          simp at this
    have hT : ¬ ((normOf (some "")).take 1 = normOf c) := by
      rw [show (normOf (some "")).take 1 = [] from rfl]
      intro h
      rcases letterB_eq_true_iff.mp hL with h1 | h1 | h1 | h1 <;> rw [h1] at h <;> cases h
    simp [hT, hR]

/-- C2 (counterexample): the claim that `compare_answers("", c)` is false
for every `c` — including an empty `c` — fails: with both answers empty the
final fallback compares two empty normalized strings and returns `true`
(the source has no empty-answer short-circuit). -/
theorem C2_empty_user_counterexample : compare_answers (some "") (some "") = true := by decide

/-- C4: when either normalized string contains a slash and no earlier
shape matched, `compare_answers` evaluates both sides numerically and
returns whether both evaluations succeed with absolute difference below
1e-6; if either evaluation fails it falls back to the plain string
comparison instead of raising.  Concretely,
`compare_answers("1/2", "0.5") = true` and
`compare_answers("1/3", "0.34") = false`. -/
theorem C4_fraction_branch :
    (∀ u c : Option String,
        letterB (normOf c) = false → opIn (normOf u) = false →
        hasBracket (procOf u) = false → hasBracket (procOf c) = false →
        (normOf u).contains ',' = false → (normOf c).contains ',' = false →
        ((normOf u).contains '/' || (normOf c).contains '/') = true →
        compare_answers u c =
          match pyEvalL (normOf u), pyEvalL (normOf c) with
          | Except.ok a, Except.ok b => tolLt (pyAbs (pySub a b))
          | _, _ => decide (normOf u = normOf c)) ∧
      compare_answers (some "1/2") (some "0.5") = true ∧
      compare_answers (some "1/3") (some "0.34") = false := by
  refine ⟨?_, by decide, by decide⟩
  intro u c h1 h2 h3 h4 h5 h6 h7
  unfold compare_answers
  rw [if_neg (by simp [h1]), if_neg (by simp [h2]), if_neg (by simp [h3, h4]),
    if_neg (by rw [h5, h6]; decide), if_pos h7]

theorem C4_fraction_branch_witness :
    ((normOf (some "1/2")).contains '/' || (normOf (some "0.5")).contains '/') = true ∧
      compare_answers (some "1/2") (some "0.5") =
        match pyEvalL (normOf (some "1/2")), pyEvalL (normOf (some "0.5")) with
        | Except.ok a, Except.ok b => tolLt (pyAbs (pySub a b))
        | _, _ => decide (normOf (some "1/2") = normOf (some "0.5")) :=
  ⟨by decide,
    C4_fraction_branch.1 (some "1/2") (some "0.5") (by decide) (by decide) (by decide)
      (by decide) (by decide) (by decide) (by decide)⟩

/-- C5: `compare_answers` is total — for every pair of optional-string
inputs (including `None`, modelled as `Option.none`) it returns a boolean,
and `None` behaves exactly like the empty string via the `x or ""`
coalescing; evaluation failures never escape (they are modelled as caught,
mirroring the source's `try`/`except`). -/
theorem C5_total :
    (∀ u c : Option String, compare_answers u c = true ∨ compare_answers u c = false) ∧
      (∀ c : Option String, compare_answers none c = compare_answers (some "") c) ∧
      (∀ u : Option String, compare_answers u none = compare_answers u (some "")) := by
  have hn : normOf none = normOf (some "") := rfl
  have hp : procOf none = procOf (some "") := rfl
  refine ⟨fun u c => ?_, fun c => ?_, fun u => ?_⟩
  · cases h : compare_answers u c
    · exact Or.inr rfl
    · exact Or.inl rfl
  · unfold compare_answers
    rw [hn, hp]
  · unfold compare_answers
    rw [hn, hp]

/-- C6 (amended): the final fallback returns `true` exactly when the two
normalized strings are identical — there is no first-character leniency in
the fallback.  A first-character comparison happens only in the
letter-choice branch, where the normalized correct answer is a single
letter a–d and the user's first character is compared against it. -/
theorem C6_fallback_amended (u c : Option String)
    (h1 : letterB (normOf c) = false) (h2 : opIn (normOf u) = false)
    (h3 : hasBracket (procOf u) = false) (h4 : hasBracket (procOf c) = false)
    (h5 : (normOf u).contains ',' = false) (h6 : (normOf c).contains ',' = false)
    (h7 : ((normOf u).contains '/' || (normOf c).contains '/') = true →
      pyEvalL (normOf u) = Except.error () ∨ pyEvalL (normOf c) = Except.error ()) :
    compare_answers u c = decide (normOf u = normOf c) := by
  unfold compare_answers
  rw [if_neg (by simp [h1]), if_neg (by simp [h2]), if_neg (by simp [h3, h4]),
    if_neg (by rw [h5, h6]; decide)]
  rcases hS : ((normOf u).contains '/' || (normOf c).contains '/') with _ | _
  · rw [if_neg (by decide)]
  · rw [if_pos rfl]
    rcases h7 hS with he | he
    · rw [he]
    · rw [he]
      rcases hu2 : pyEvalL (normOf u) with e | v <;> rfl

theorem C6_fallback_witness :
    compare_answers (some "hello") (some "hello") =
      decide (normOf (some "hello") = normOf (some "hello")) :=
  C6_fallback_amended (some "hello") (some "hello") (by decide) (by decide) (by decide)
    (by decide) (by decide) (by decide) (by decide)

/-- C6 (counterexample): the claimed secondary leniency — accepting a user
string equal to just the first character of the correct string — does not
exist in the fallback: `"5"` is the first character of `"56"`, yet
`compare_answers("5", "56") = false`. -/
theorem C6_fallback_counterexample :
    normOf (some "5") = (normOf (some "56")).take 1 ∧
      compare_answers (some "5") (some "56") = false :=
  ⟨by decide, by decide⟩

/-- C7: the textual Russian operator phrases are substituted in both
inputs before normalization and classification, in the fixed source order
"больше или равно"→">=", "меньше или равно"→"<=", "больше"→">",
"меньше"→"<" (longer phrases first, so partial matches do not corrupt the
result); consequently `compare_answers("больше или равно 3", ">=3")` is
`true`, in both argument positions. -/
theorem C7_textual_operators :
    replace_textual_operators "больше или равно 3" = ">= 3" ∧
      replace_textual_operators "меньше или равно 3" = "<= 3" ∧
      replace_textual_operators "больше 3" = "> 3" ∧
      replace_textual_operators "меньше 3" = "< 3" ∧
      compare_answers (some "больше или равно 3") (some ">=3") = true ∧
      compare_answers (some ">=3") (some "больше или равно 3") = true ∧
      compare_answers (some "МЕНЬШЕ ИЛИ РАВНО 7") (some "<=7") = true := by
  refine ⟨by decide, by decide, by decide, by decide, by decide, by decide, by decide⟩

/-- C8 (amended): when either answer contains a bracket character (and no
letter-choice or inequality shape matched), `compare_answers` compares the
two preprocessed strings after removing space characters (U+0020) only —
other whitespace such as tabs is preserved and breaks equality — keeping
the brackets, so bracket kind is significant:
`compare_answers("[2, inf)", "[2,inf)") = true` and
`compare_answers("[2, inf)", "(2, inf)") = false`. -/
theorem C8_bracket_amended :
    (∀ u c : Option String,
        letterB (normOf c) = false → opIn (normOf u) = false →
        (hasBracket (procOf u) || hasBracket (procOf c)) = true →
        compare_answers u c = decide (removeSpaces (procOf u) = removeSpaces (procOf c))) ∧
      compare_answers (some "[2, inf)") (some "[2,inf)") = true ∧
      compare_answers (some "[2, inf)") (some "(2, inf)") = false := by
  refine ⟨?_, by decide, by decide⟩
  intro u c h1 h2 h3
  unfold compare_answers
  rw [if_neg (by simp [h1]), if_neg (by simp [h2]), if_pos h3]

theorem C8_bracket_amended_witness :
    (hasBracket (procOf (some "[2, inf)")) || hasBracket (procOf (some "[2,inf)"))) = true ∧
      compare_answers (some "[2, inf)") (some "[2,inf)") =
        decide (removeSpaces (procOf (some "[2, inf)")) =
          removeSpaces (procOf (some "[2,inf)"))) :=
  ⟨by decide,
    C8_bracket_amended.1 (some "[2, inf)") (some "[2,inf)") (by decide) (by decide) (by decide)⟩

/-- C8 (counterexample): the bracket branch does not remove all
whitespace, only spaces: the two interval answers differ only in an
interior tab versus a space — full whitespace removal would make them
identical — yet `compare_answers` returns `false`. -/
theorem C8_bracket_counterexample :
    (procOf (some "[2,\tinf)")).filter (fun ch => !pyWs ch) =
        (procOf (some "[2, inf)")).filter (fun ch => !pyWs ch) ∧
      compare_answers (some "[2,\tinf)") (some "[2, inf)") = false :=
  ⟨by decide, by decide⟩

/-!
## Reflexivity and the quiz-count contract
-/

/-- Holds when an evaluation outcome cannot poison the reflexive
`abs(v - v) < 1e-6` test: either the evaluation failed (the comparator
falls back to string equality) or it produced a finite value (with the
evaluator's positive-denominator representation). -/
def evalFiniteOk : Except Unit PyFloat → Bool
  | .ok (.fin x) => decide (0 < x.den)
  | .ok _ => false
  | .error _ => true

/-- C10 (amended): `compare_answers(s, s) = true` for every string `s`
whose slash-branch numeric evaluation (when that branch is reached) does
not produce a non-finite value; every branch accepts an identical answer,
except that a successful evaluation to an infinity makes the comparison
`abs(v - v) < 1e-6` compare NaN and fail. -/
theorem C10_reflexive_amended (s : String)
    (h : evalFiniteOk (pyEvalL (normOf (some s))) = true) :
    compare_answers (some s) (some s) = true := by
  have htt : (true || true) = true := rfl
  unfold compare_answers
  rcases hL : letterB (normOf (some s)) with _ | _
  · rw [if_neg (by decide)]
    rcases hop : opIn (normOf (some s)) with _ | _
    · rw [if_neg (by decide)]
      rcases hB : hasBracket (procOf (some s)) with _ | _
      · rw [if_neg (by decide)]
        rcases hC : (normOf (some s)).contains ',' with _ | _
        · rw [if_neg (by decide)]
          rcases hS : (normOf (some s)).contains '/' with _ | _
          · rw [if_neg (by decide)]
            simp
          · rw [if_pos htt]
            rcases he : pyEvalL (normOf (some s)) with e | v
            · simp
            · rw [he] at h
              rcases v with x | _ | _ | _
              · simp only [evalFiniteOk, decide_eq_true_eq] at h
                simp only [pySub, pyNeg, fneg, pyAdd, fadd, pyAbs, fabs, tolLt, pyLtB, fltB]
                rw [decide_eq_true_eq]
                have hz : x.num * (x.den : Int) + -x.num * (x.den : Int) = 0 := by ring
                rw [hz]
                have hd : (0 : Int) < ((x.den * x.den : Nat) : Int) := by
                  exact_mod_cast Nat.mul_pos h h
                simpa using hd
              · simp [evalFiniteOk] at h
              · simp [evalFiniteOk] at h
              · simp [evalFiniteOk] at h
        · rw [if_pos htt]
          exact setEqB_refl _
      · rw [if_pos htt]
        simp
    · rw [if_pos rfl]
      simp
  · rw [if_pos rfl]
    rcases letterB_eq_true_iff.mp hL with h1 | h1 | h1 | h1 <;> rw [h1] <;> decide

theorem C10_reflexive_witness :
    evalFiniteOk (pyEvalL (normOf (some "1/2"))) = true ∧
      compare_answers (some "1/2") (some "1/2") = true :=
  ⟨by decide, C10_reflexive_amended "1/2" (by decide)⟩

/-- C10 (counterexample): reflexivity fails on the code — for
`s = "1e999/1"` the float literal overflows to infinity, the slash branch
evaluates both sides to infinity, `inf - inf` is NaN, `NaN < 1e-6` is
false, and `compare_answers(s, s) = false`. -/
theorem C10_reflexive_counterexample :
    compare_answers (some "1e999/1") (some "1e999/1") = false := by decide

theorem validateItem_wf {r : RawQuestion} {q : GeneratedQuestion}
    (h : validateItem r = some q) :
    q.options.length = 4 ∧
      (q.correct_answer = 'A' ∨ q.correct_answer = 'B' ∨ q.correct_answer = 'C' ∨
        q.correct_answer = 'D') := by
  rcases r with ⟨rq, ropts, rca, rex⟩
  cases ropts with
  | none => simp [validateItem] at h
  | some opts =>
    cases rca with
    | none => simp [validateItem] at h
    | some ca =>
      obtain ⟨cal⟩ := ca
      cases cal with
      | nil => simp [validateItem] at h
      | cons c0 rest =>
        simp only [validateItem] at h
        by_cases hcond : opts.length = 4 ∧ (toUpperChar c0 = 'A' ∨ toUpperChar c0 = 'B' ∨
            toUpperChar c0 = 'C' ∨ toUpperChar c0 = 'D')
        · rw [if_pos hcond] at h
          injection h with h2
          subst h2
          refine ⟨?_, hcond.2⟩
          show (prefixOptions opts).length = 4
          simp [prefixOptions, List.length_zip, hcond.1]
        · rw [if_neg hcond] at h
          simp at h

/-- C9: `ensureQuestionCount` always returns exactly the requested number
of well-formed questions — every returned item has 4 options and a valid
correct letter; when enough raw items validate, the result is the
positional truncation of the accepted items (no placeholders); and
validating an empty input against target 5 yields exactly 5 placeholder
questions. -/
theorem C9_ensure_count :
    (∀ (raw : List RawQuestion) (target : Nat) (label : String),
        (ensureQuestionCount raw target label).length = target) ∧
      (∀ (raw : List RawQuestion) (target : Nat) (label : String) (q : GeneratedQuestion),
        q ∈ ensureQuestionCount raw target label →
        q.options.length = 4 ∧
          (q.correct_answer = 'A' ∨ q.correct_answer = 'B' ∨ q.correct_answer = 'C' ∨
            q.correct_answer = 'D')) ∧
      (∀ (raw : List RawQuestion) (target : Nat) (label : String),
        target ≤ (raw.filterMap validateItem).length →
        ensureQuestionCount raw target label = (raw.filterMap validateItem).take target) ∧
      ensureQuestionCount [] 5 "Topic" = List.replicate 5 (placeholderQuestion "Topic") := by
  refine ⟨?_, ?_, ?_, by decide⟩
  · intro raw target label
    unfold ensureQuestionCount
    simp only [List.length_append, List.length_replicate, List.length_take]
    omega
  · intro raw target label q hq
    unfold ensureQuestionCount at hq
    rcases List.mem_append.mp hq with hq | hq
    · obtain ⟨r, _, hval⟩ := List.mem_filterMap.mp (List.take_subset _ _ hq)
      exact validateItem_wf hval
    · have hq2 : q = placeholderQuestion label := List.eq_of_mem_replicate hq
      subst hq2
      exact ⟨rfl, Or.inl rfl⟩
  · intro raw target label h
    unfold ensureQuestionCount
    have hlen : ((raw.filterMap validateItem).take target).length = target := by
      simp only [List.length_take]
      omega
    rw [hlen]
    simp

theorem C9_ensure_count_witness :
    (placeholderQuestion "Topic" ∈ ensureQuestionCount [] 5 "Topic" ∧
        ((placeholderQuestion "Topic").options.length = 4 ∧
          ((placeholderQuestion "Topic").correct_answer = 'A' ∨
            (placeholderQuestion "Topic").correct_answer = 'B' ∨
            (placeholderQuestion "Topic").correct_answer = 'C' ∨
            (placeholderQuestion "Topic").correct_answer = 'D'))) ∧
      (1 ≤ (([⟨some "Q", some ["w", "x", "y", "z"], some "b", some "E"⟩] :
            List RawQuestion).filterMap validateItem).length ∧
        ensureQuestionCount [⟨some "Q", some ["w", "x", "y", "z"], some "b", some "E"⟩] 1 "T" =
          (([⟨some "Q", some ["w", "x", "y", "z"], some "b", some "E"⟩] :
            List RawQuestion).filterMap validateItem).take 1) :=
  ⟨⟨by decide, C9_ensure_count.2.1 [] 5 "Topic" (placeholderQuestion "Topic") (by decide)⟩,
    ⟨by decide, C9_ensure_count.2.2.1 _ 1 "T" (by decide)⟩⟩
